import Mathlib

/- Formal model of the LC-3 virtual machine implemented in src/lc3.c, and
proofs of specification properties about it.

Machine words (C type uint16_t) are modelled as natural numbers; every store
into a uint16_t location truncates modulo 65536, mirroring the C conversion
on assignment.  The register file and memory are functions from indices to
naturals.  Console input is modelled as the list of characters pending on
standard input (check_key reports whether it is nonempty; getchar pops it,
returning EOF cast to uint16_t, 0xFFFF, at end of stream).  Console output
is the list of emitted byte values. -/

namespace LC3

abbrev Mem := Nat → Nat
abbrev Regs := Nat → Nat

-- REGISTERS (enum in lc3.c)
def R_R0 : Nat := 0
def R_R7 : Nat := 7
def R_PC : Nat := 8
def R_COND : Nat := 9

-- CONDITION FLAGS
def FL_POS : Nat := 1 <<< 0
def FL_ZRO : Nat := 1 <<< 1
def FL_NEG : Nat := 1 <<< 2

-- MEMORY MAPPED REGISTERS
def MR_KBSR : Nat := 0xFE00
def MR_KBDR : Nat := 0xFE02

-- TRAP codes
def TRAP_GETC : Nat := 0x20
def TRAP_OUT : Nat := 0x21
def TRAP_PUTS : Nat := 0x22
def TRAP_IN : Nat := 0x23
def TRAP_PUTSP : Nat := 0x24
def TRAP_HALT : Nat := 0x25

def MEMORY_MAX : Nat := 1 <<< 16

-- check_key(): whether console input is currently available.
def check_key (input : List Nat) : Bool := !input.isEmpty

-- getchar(): pop the next pending character; 0xFFFF models EOF (-1) cast
-- to uint16_t when the stream is exhausted.
def getchar : List Nat → Nat × List Nat
  | [] => (0xFFFF, [])
  | c :: rest => (c, rest)

-- SIGN EXTEND: uint16_t sign_extend(uint16_t x, int bit_count).
-- The C assignment x |= (0xFFFF << bit_count) computes in int and
-- truncates back to uint16_t.
def sign_extend (x0 : Nat) (bit_count : Nat) : Nat :=
  let x := x0 % 65536
  if (x >>> (bit_count - 1)) &&& 1 = 1 then (x ||| (0xFFFF <<< bit_count)) % 65536
  else x

-- SWAP: uint16_t swap16(uint16_t x) = (x << 8) | (x >> 8), truncated.
def swap16 (x0 : Nat) : Nat :=
  let x := x0 % 65536
  ((x <<< 8) ||| (x >>> 8)) % 65536

-- Store into the uint16_t register array reg[i] = v (assignment truncates).
def writeReg (r : Regs) (i v : Nat) : Regs :=
  fun j => if j = i then v % 65536 else r j

-- UPDATE FLAGS: void update_flags(uint16_t r).
def update_flags (r : Regs) (i : Nat) : Regs :=
  if r i = 0 then writeReg r R_COND FL_ZRO
  else if r i >>> 15 ≠ 0 then writeReg r R_COND FL_NEG
  else writeReg r R_COND FL_POS

-- The flag value update_flags assigns for a stored word v.
def flagOf (v : Nat) : Nat :=
  if v = 0 then FL_ZRO else if v >>> 15 ≠ 0 then FL_NEG else FL_POS

-- The condition-code register holds exactly one of the three flags.
def oneFlag (c : Nat) : Prop := c = FL_POS ∨ c = FL_ZRO ∨ c = FL_NEG

-- void mem_write(uint16_t address, uint16_t val): both parameters are
-- uint16_t, so they are truncated at the call boundary.
def mem_write (m : Mem) (address val : Nat) : Mem :=
  fun a => if a = address % 65536 then val % 65536 else m a

-- uint16_t mem_read(uint16_t address): reads of MR_KBSR poll the keyboard
-- as a side effect; returns the (possibly updated) stored word, together
-- with the updated memory and remaining input.
def mem_read (m : Mem) (input : List Nat) (address : Nat) : Nat × Mem × List Nat :=
  let ad := address % 65536
  if ad = MR_KBSR then
    if check_key input then
      let g := getchar input
      let m2 := mem_write (mem_write m MR_KBSR (1 <<< 15)) MR_KBDR g.1
      (m2 ad, m2, g.2)
    else
      let m2 := mem_write m MR_KBSR 0
      (m2 ad, m2, input)
  else (m ad, m, input)

-- IMAGE LOADER.  fread writes the raw file words directly into the memory
-- array at the origin (pointer arithmetic, no wraparound); the program then
-- swaps each loaded word to host byte order in place.  Writing at an index
-- at or beyond 65536 models an out-of-bounds store past the array.
def store_word (m : Mem) (addr v : Nat) : Mem :=
  fun x => if x = addr then v % 65536 else m x

def load_words (m : Mem) (addr : Nat) : List Nat → Mem
  | [] => m
  | w :: ws => load_words (store_word m addr w) (addr + 1) ws

-- void read_image_file(FILE* file): rawOrigin is the first word of the
-- stream as fread delivers it; body is the rest of the stream words as
-- fread delivers them.  uint16_t max_read = MEMORY_MAX - origin truncates
-- the int difference to 16 bits.
def read_image_file (m : Mem) (rawOrigin : Nat) (body : List Nat) : Mem :=
  let origin := swap16 rawOrigin
  let max_read := (MEMORY_MAX - origin) % 65536
  load_words m origin ((body.take max_read).map swap16)

-- int read_image(const char* image_path): a missing/unreadable file is
-- fopen returning NULL, modelled as none; otherwise the stream contents.
def read_image (m : Mem) (file : Option (Nat × List Nat)) : Nat × Mem :=
  match file with
  | none => (0, m)
  | some f => (1, read_image_file m f.1 f.2)

-- MACHINE STATE for the execute loop.
structure VM where
  mem : Mem
  reg : Regs
  running : Bool
  input : List Nat
  output : List Nat

-- Outcome of one iteration of the while loop: either the successor state,
-- or the process aborted (abort() on an illegal opcode).
inductive StepResult where
  | next (s : VM)
  | aborted

-- Outcome of a bounded run of the loop.
inductive RunResult where
  | halted (s : VM)
  | aborted
  | outOfFuel (s : VM)

def strOut (msg : String) : List Nat := msg.data.map Char.toNat

-- TRAP_PUTS output: walk words from the start address, emitting the low
-- byte of each, until a zero word.  The fuel bounds the walk to the end of
-- the memory array (past it the C program behaviour is undefined).
def puts_go (m : Mem) : Nat → Nat → List Nat
  | _, 0 => []
  | a, fuel + 1 => if m a = 0 then [] else (m a % 256) :: puts_go m (a + 1) fuel

def puts_chars (m : Mem) (start0 : Nat) : List Nat :=
  let start := start0 % 65536
  puts_go m start (65536 - start)

-- TRAP_PUTSP output: each word packs two characters, low byte first, the
-- high byte only when nonzero.
def putsp_go (m : Mem) : Nat → Nat → List Nat
  | _, 0 => []
  | a, fuel + 1 =>
    if m a = 0 then []
    else
      let char1 := m a % 256
      let char2 := (m a % 65536) >>> 8
      (if char2 = 0 then [char1] else [char1, char2]) ++ putsp_go m (a + 1) fuel

def putsp_chars (m : Mem) (start0 : Nat) : List Nat :=
  let start := start0 % 65536
  putsp_go m start (65536 - start)

-- Operation handlers.  Each receives the state after the fetch (program
-- counter already incremented) and the fetched instruction word.

def execADD (s : VM) (i : Nat) : VM :=
  let r0 := (i >>> 9) &&& 0x7
  let r1 := (i >>> 6) &&& 0x7
  let imm_flag := (i >>> 5) &&& 0x1
  let regs :=
    if imm_flag = 1 then
      writeReg s.reg r0 (s.reg r1 + sign_extend (i &&& 0x1F) 5)
    else
      writeReg s.reg r0 (s.reg r1 + s.reg (i &&& 0x7))
  { s with reg := update_flags regs r0 }

def execAND (s : VM) (i : Nat) : VM :=
  let r0 := (i >>> 9) &&& 0x7
  let r1 := (i >>> 6) &&& 0x7
  let imm_flag := (i >>> 5) &&& 0x1
  let regs :=
    if imm_flag = 1 then
      writeReg s.reg r0 (s.reg r1 &&& sign_extend (i &&& 0x1F) 5)
    else
      writeReg s.reg r0 (s.reg r1 &&& s.reg (i &&& 0x7))
  { s with reg := update_flags regs r0 }

-- reg[r0] = ~reg[r1]: the int-level complement truncated to uint16_t
-- equals XOR with 0xFFFF on the 16-bit value.
def execNOT (s : VM) (i : Nat) : VM :=
  let r0 := (i >>> 9) &&& 0x7
  let r1 := (i >>> 6) &&& 0x7
  let regs := writeReg s.reg r0 ((s.reg r1 % 65536) ^^^ 0xFFFF)
  { s with reg := update_flags regs r0 }

def execBR (s : VM) (i : Nat) : VM :=
  let pc_offset := sign_extend (i &&& 0x1FF) 9
  let cond_flag := (i >>> 9) &&& 0x7
  if cond_flag &&& s.reg R_COND ≠ 0 then
    { s with reg := writeReg s.reg R_PC (s.reg R_PC + pc_offset) }
  else s

def execJMP (s : VM) (i : Nat) : VM :=
  let r1 := (i >>> 6) &&& 0x7
  { s with reg := writeReg s.reg R_PC (s.reg r1) }

-- JSR/JSRR: the link write reg[R_R7] = reg[R_PC] happens first; the base
-- register (register form) is read afterwards.
def execJSR (s : VM) (i : Nat) : VM :=
  let long_flag := (i >>> 11) &&& 1
  let regs := writeReg s.reg R_R7 (s.reg R_PC)
  if long_flag = 1 then
    { s with reg := writeReg regs R_PC (regs R_PC + sign_extend (i &&& 0x7FF) 11) }
  else
    { s with reg := writeReg regs R_PC (regs ((i >>> 6) &&& 0x7)) }

def execLD (s : VM) (i : Nat) : VM :=
  let r0 := (i >>> 9) &&& 0x7
  let pc_offset := sign_extend (i &&& 0x1FF) 9
  let rd := mem_read s.mem s.input (s.reg R_PC + pc_offset)
  let regs := writeReg s.reg r0 rd.1
  { s with mem := rd.2.1, input := rd.2.2, reg := update_flags regs r0 }

def execLDI (s : VM) (i : Nat) : VM :=
  let r0 := (i >>> 9) &&& 0x7
  let pc_offset := sign_extend (i &&& 0x1FF) 9
  let rd1 := mem_read s.mem s.input (s.reg R_PC + pc_offset)
  let rd2 := mem_read rd1.2.1 rd1.2.2 rd1.1
  let regs := writeReg s.reg r0 rd2.1
  { s with mem := rd2.2.1, input := rd2.2.2, reg := update_flags regs r0 }

def execLDR (s : VM) (i : Nat) : VM :=
  let r0 := (i >>> 9) &&& 0x7
  let r1 := (i >>> 6) &&& 0x7
  let offset := sign_extend (i &&& 0x3F) 6
  let rd := mem_read s.mem s.input (s.reg r1 + offset)
  let regs := writeReg s.reg r0 rd.1
  { s with mem := rd.2.1, input := rd.2.2, reg := update_flags regs r0 }

def execLEA (s : VM) (i : Nat) : VM :=
  let r0 := (i >>> 9) &&& 0x7
  let pc_offset := sign_extend (i &&& 0x1FF) 9
  let regs := writeReg s.reg r0 (s.reg R_PC + pc_offset)
  { s with reg := update_flags regs r0 }

def execST (s : VM) (i : Nat) : VM :=
  let r0 := (i >>> 9) &&& 0x7
  let pc_offset := sign_extend (i &&& 0x1FF) 9
  { s with mem := mem_write s.mem (s.reg R_PC + pc_offset) (s.reg r0) }

def execSTI (s : VM) (i : Nat) : VM :=
  let r0 := (i >>> 9) &&& 0x7
  let pc_offset := sign_extend (i &&& 0x1FF) 9
  let rd := mem_read s.mem s.input (s.reg R_PC + pc_offset)
  { s with mem := mem_write rd.2.1 rd.1 (s.reg r0), input := rd.2.2 }

def execSTR (s : VM) (i : Nat) : VM :=
  let r0 := (i >>> 9) &&& 0x7
  let r1 := (i >>> 6) &&& 0x7
  let offset := sign_extend (i &&& 0x3F) 6
  { s with mem := mem_write s.mem (s.reg r1 + offset) (s.reg r0) }

-- TRAP dispatcher.  reg[R_R7] = reg[R_PC] first, then dispatch on the low
-- 8 bits.  The C switch has no default case: a trap code outside the six
-- defined ones falls through with no effect beyond the R7 write.
def execTRAP (s0 : VM) (i : Nat) : StepResult :=
  let s := { s0 with reg := writeReg s0.reg R_R7 (s0.reg R_PC) }
  let t := i &&& 0xFF
  if t = TRAP_GETC then
    let g := getchar s.input
    .next { s with reg := update_flags (writeReg s.reg R_R0 g.1) R_R0, input := g.2 }
  else if t = TRAP_OUT then
    .next { s with output := s.output ++ [s.reg R_R0 % 256] }
  else if t = TRAP_PUTS then
    .next { s with output := s.output ++ puts_chars s.mem (s.reg R_R0) }
  else if t = TRAP_IN then
    -- char c = getchar(); reg[R_R0] = (uint16_t)c sign-extends the byte.
    let g := getchar s.input
    let c := g.1 % 256
    let v := if c < 128 then c else 0xFF00 + c
    .next { s with
            reg := update_flags (writeReg s.reg R_R0 v) R_R0,
            input := g.2,
            output := s.output ++ strOut "Enter a character: " ++ [c] }
  else if t = TRAP_PUTSP then
    .next { s with output := s.output ++ putsp_chars s.mem (s.reg R_R0) }
  else if t = TRAP_HALT then
    .next { s with running := false, output := s.output ++ strOut "Shutdown" ++ [10] }
  else
    .next s

-- The switch on the 4-bit opcode, applied to the post-fetch state and the
-- fetched instruction.  OP_RTI (8), OP_RES (13) and the default branch call
-- abort().
def dispatch (s1 : VM) (instr : Nat) : StepResult :=
  match instr >>> 12 with
  | 1 => .next (execADD s1 instr)
  | 5 => .next (execAND s1 instr)
  | 9 => .next (execNOT s1 instr)
  | 0 => .next (execBR s1 instr)
  | 12 => .next (execJMP s1 instr)
  | 4 => .next (execJSR s1 instr)
  | 2 => .next (execLD s1 instr)
  | 10 => .next (execLDI s1 instr)
  | 6 => .next (execLDR s1 instr)
  | 14 => .next (execLEA s1 instr)
  | 3 => .next (execST s1 instr)
  | 11 => .next (execSTI s1 instr)
  | 7 => .next (execSTR s1 instr)
  | 15 => execTRAP s1 instr
  | _ => .aborted

-- One iteration of the while loop: fetch at reg[R_PC] (post-incrementing
-- it, with the keyboard-poll side effect of mem_read), then dispatch on the
-- opcode.
def step (s : VM) : StepResult :=
  let fr := mem_read s.mem s.input (s.reg R_PC)
  let s1 : VM := { s with
                   mem := fr.2.1,
                   input := fr.2.2,
                   reg := writeReg s.reg R_PC (s.reg R_PC + 1) }
  dispatch s1 fr.1

-- The instruction word the next step will fetch (including the keyboard
-- poll side effect returned value).
def fetchInstr (s : VM) : Nat := (mem_read s.mem s.input (s.reg R_PC)).1

-- Bounded execution of the while loop.
def run : Nat → VM → RunResult
  | 0, s => .outOfFuel s
  | fuel + 1, s =>
    if s.running then
      match step s with
      | .next s2 => run fuel s2
      | .aborted => .aborted
    else .halted s

-- Registers at the start of main: the global array is zero-initialised,
-- then reg[R_COND] = FL_ZRO and reg[R_PC] = PC_START (0x3000).
def PC_START : Nat := 0x3000

def initRegs : Regs :=
  fun i => if i = R_COND then FL_ZRO else if i = R_PC then PC_START else 0

def initVM (m : Mem) (inp : List Nat) : VM :=
  { mem := m, reg := initRegs, running := true, input := inp, output := [] }

-- States the execute loop can reach, from any loaded memory and input.
inductive Reachable : VM → Prop
  | init (m : Mem) (inp : List Nat) : Reachable (initVM m inp)
  | step (s s2 : VM) : Reachable s → s.running = true → step s = .next s2 →
      Reachable s2

-- An operation that routes its result through update_flags: ADD, AND, NOT,
-- LD, LDI, LDR, LEA, and TRAP GETC / TRAP IN.
def flag_affecting (i : Nat) : Bool :=
  let op := i >>> 12
  (op = 1) || (op = 5) || (op = 9) || (op = 2) || (op = 10) || (op = 6) || (op = 14) ||
    ((op = 15) && ((i &&& 0xFF = TRAP_GETC) || (i &&& 0xFF = TRAP_IN)))

-- Destination register of a flag-affecting operation (R0 for the traps).
def flag_dest (i : Nat) : Nat :=
  if i >>> 12 = 15 then R_R0 else (i >>> 9) &&& 0x7

-- Successor state extractor, for naming concrete step results.
def stepState (s : VM) : VM :=
  match step s with
  | .next s2 => s2
  | .aborted => s

-- the image-loading loop in main: each file is loaded in order; a failed load
-- exits before execution starts.
def load_images (m : Mem) : List (Option (Nat × List Nat)) → Option Mem
  | [] => some m
  | f :: fs =>
    let r := read_image m f
    if r.1 = 0 then none else load_images r.2 fs

-- main: load all images into the zero-initialised memory, then run the
-- loop; none models exiting with a load failure, before execution starts.
def lc3_main (files : List (Option (Nat × List Nat))) (inp : List Nat)
    (fuel : Nat) : Option RunResult :=
  match load_images (fun _ => 0) files with
  | none => none
  | some m => some (run fuel (initVM m inp))

-- Signed interpretations, for stating twos-complement sign extension.
def toInt16 (v : Nat) : Int :=
  if v < 32768 then (v : Int) else (v : Int) - 65536

def toIntW (w : Nat) (x : Nat) : Int :=
  if x < 2 ^ (w - 1) then (x : Int) else (x : Int) - 2 ^ w

-- Concrete machine states used to instantiate the theorems below.

-- ADD R0, R0, #1 at the start address.
def c1m : Mem := fun a => if a = 0x3000 then 0x1021 else 0

def c1s : VM := initVM c1m []

def c1s1 : VM := stepState c1s

-- Memory holding 7 everywhere, for exercising the device shim.
def c2m : Mem := fun _ => 7

-- TRAP 0x26 (an undefined trap vector) at the start address.
def c3m : Mem := fun a => if a = 0x3000 then 0xF026 else 0

def c3s : VM := initVM c3m []

def c3s1 : VM := stepState c3s

-- An RTI instruction (opcode 0x8) at the start address.
def c4m : Mem := fun a => if a = 0x3000 then 0x8000 else 0

def c4s : VM := initVM c4m []

-- ADD R0, R1, R2 (register form) at the start address.
def c7m_reg : Mem := fun a => if a = 0x3000 then 0x1042 else 0

-- ADD R0, R1, #1 (immediate form) at the start address.
def c7m_imm : Mem := fun a => if a = 0x3000 then 0x1061 else 0

def c7regs : Regs := writeReg (writeReg initRegs 1 0xFFFF) 2 1

def c7s_reg : VM :=
  { mem := c7m_reg, reg := c7regs, running := true, input := [], output := [] }

def c7s_imm : VM :=
  { mem := c7m_imm, reg := c7regs, running := true, input := [], output := [] }

-- JSRR with base register R7 at the start address.
def c9m : Mem := fun a => if a = 0x3000 then 0x41C0 else 0

def c9s : VM := initVM c9m []

/- Basic lemmas about the register file and flag update. -/

theorem writeReg_ne (r : Regs) (i v j : Nat) (h : j ≠ i) : writeReg r i v j = r j := by
  simp [writeReg, h]

theorem writeReg_self (r : Regs) (i v : Nat) : writeReg r i v i = v % 65536 := by
  simp [writeReg]

theorem update_flags_cond (r : Regs) (i : Nat) :
    update_flags r i R_COND = flagOf (r i) := by
  unfold update_flags flagOf
  split_ifs <;> simp [writeReg] <;> decide

theorem update_flags_other (r : Regs) (i j : Nat) (h : j ≠ R_COND) :
    update_flags r i j = r j := by
  unfold update_flags
  split_ifs <;> exact writeReg_ne _ _ _ _ h

theorem update_flags_reflects (r : Regs) (i : Nat) (h : i ≠ R_COND) :
    update_flags r i R_COND = flagOf (update_flags r i i) := by
  rw [update_flags_other r i i h, update_flags_cond]

theorem flagOf_oneFlag (v : Nat) : oneFlag (flagOf v) := by
  unfold flagOf oneFlag
  split_ifs
  · right; left; rfl
  · right; right; rfl
  · left; rfl

theorem dest_ne_cond (i : Nat) : (i >>> 9) &&& 0x7 ≠ R_COND := by
  have h := @Nat.and_le_right (i >>> 9) 0x7
  unfold R_COND
  omega

/- Sign extension: soundness for every field width from 1 to 15. -/

theorem lor_shiftLeft_eq_add (x b w : Nat) (hx : x < 2 ^ w) :
    x ||| (b <<< w) = b <<< w + x := by
  apply Nat.eq_of_testBit_eq
  intro i
  have hadd : b <<< w + x = 2 ^ w * b + x := by rw [Nat.shiftLeft_eq]; ring
  rw [hadd, Nat.testBit_mul_pow_two_add b hx i, Nat.testBit_or, Nat.testBit_shiftLeft]
  by_cases hi : i < w
  · have h2 : ¬ (i ≥ w) := by omega
    simp [hi, h2]
  · have hxi : x.testBit i = false :=
      Nat.testBit_lt_two_pow (lt_of_lt_of_le hx (Nat.pow_le_pow_right (by norm_num) (by omega)))
    have h2 : i ≥ w := by omega
    simp [hi, h2, hxi]

theorem se_decomp (p q x : Nat) (hq2 : q = 2 * p) (hqle : q ≤ 32768) (hx : x < q)
    (hge : p ≤ x) :
    ∃ d e g, x + d = q ∧ g + 1 = d ∧ e + g = 65535 ∧ e + g + 1 = 65536 ∧ 32768 ≤ e ∧
      e < 65536 ∧ e + q = 65536 + x := by
  obtain ⟨k, hk⟩ := Nat.exists_eq_add_of_lt hx
  obtain ⟨e, he⟩ := Nat.exists_eq_add_of_le (show k ≤ 65535 by omega)
  exact ⟨k + 1, e, k, by omega, rfl, by omega, by omega, by omega, by omega, by omega⟩

theorem se_mod (q x d e g : Nat) (hd : x + d = q) (hg : g + 1 = d) (hee : e + g = 65535)
    (hee2 : e + g + 1 = 65536) :
    (65535 * q + x) % 65536 = e := by
  have h1 : 65535 * q + x = 65536 * x + 65535 * d := by rw [← hd]; ring
  have h2 : 65535 * d = 65536 * g + e := by rw [← hg, ← hee, ← hee2]; ring
  rw [h1, Nat.mul_add_mod, h2, Nat.mul_add_mod, Nat.mod_eq_of_lt (by omega)]

theorem toInt16_low (v : Nat) (h : v < 32768) : toInt16 v = (v : Int) := by
  unfold toInt16
  rw [if_pos h]

theorem toInt16_high (v : Nat) (h1 : 32768 ≤ v) : toInt16 v = (v : Int) - 65536 := by
  unfold toInt16
  rw [if_neg (by omega)]

theorem toIntW_low (w x : Nat) (h : x < 2 ^ (w - 1)) : toIntW w x = (x : Int) := by
  unfold toIntW
  rw [if_pos h]

theorem toIntW_high (w x : Nat) (h : ¬ x < 2 ^ (w - 1)) :
    toIntW w x = (x : Int) - ((2 ^ w : Nat) : Int) := by
  unfold toIntW
  rw [if_neg h]
  norm_cast

theorem se_int_eq (q x e : Nat) (heq : e + q = 65536 + x) :
    (e : Int) - 65536 = (x : Int) - (q : Int) := by
  have hZ : (e : Int) + (q : Int) = 65536 + (x : Int) := by exact_mod_cast heq
  omega

theorem lt_32768_of_lt_halfpow (w x : Nat) (hw2 : w ≤ 15) (h : x < 2 ^ (w - 1)) :
    x < 32768 := by
  have h14 : 2 ^ (w - 1) ≤ 2 ^ 14 := Nat.pow_le_pow_right (by norm_num) (by omega)
  have h15 : (2 : Nat) ^ 14 = 16384 := by norm_num
  omega

theorem sign_extend_sound (w x : Nat) (hw1 : 1 ≤ w) (hw2 : w ≤ 15) (hx : x < 2 ^ w) :
    toInt16 (sign_extend x w) = toIntW w x ∧ sign_extend x w < 65536 := by
  have hp : 0 < 2 ^ (w - 1) := Nat.two_pow_pos _
  have hq2 : 2 ^ w = 2 * 2 ^ (w - 1) := by
    have hw : w - 1 + 1 = w := by omega
    calc 2 ^ w = 2 ^ (w - 1 + 1) := by rw [hw]
    _ = 2 ^ (w - 1) * 2 := Nat.pow_succ 2 (w - 1)
    _ = 2 * 2 ^ (w - 1) := by ring
  have hqle : 2 ^ w ≤ 32768 := by
    calc 2 ^ w ≤ 2 ^ 15 := Nat.pow_le_pow_right (by norm_num) hw2
    _ = 32768 := by norm_num
  have hx65536 : x % 65536 = x :=
    Nat.mod_eq_of_lt (Nat.lt_of_lt_of_le hx (le_trans hqle (by norm_num)))
  have hcond : (x >>> (w - 1)) &&& 1 = x / 2 ^ (w - 1) % 2 := by
    rw [Nat.shiftRight_eq_div_pow, Nat.and_one_is_mod]
  by_cases hge : 2 ^ (w - 1) ≤ x
  · have hd1 : 1 ≤ x / 2 ^ (w - 1) := (Nat.one_le_div_iff hp).2 hge
    have hd2 : x / 2 ^ (w - 1) < 2 := (Nat.div_lt_iff_lt_mul hp).2 (by rw [← hq2]; exact hx)
    have hdiv : x / 2 ^ (w - 1) = 1 := by clear hq2 hqle hx65536 hcond hx hge; omega
    obtain ⟨d, e, g, hd, hg, hee, hee2, he32, he65, heq⟩ :=
      se_decomp (2 ^ (w - 1)) (2 ^ w) x hq2 hqle hx hge
    clear hd1 hd2 hq2 hqle hp
    have hse : sign_extend x w = e := by
      simp only [sign_extend]
      rw [hx65536, hcond, hdiv, if_pos (by decide : 1 % 2 = 1)]
      rw [lor_shiftLeft_eq_add x 0xFFFF w hx, Nat.shiftLeft_eq]
      exact se_mod (2 ^ w) x d e g hd hg hee hee2
    rw [hse]
    constructor
    · rw [toInt16_high e he32, toIntW_high w x (Nat.not_lt.mpr hge)]
      exact se_int_eq (2 ^ w) x e heq
    · exact he65
  · have hxlt : x < 2 ^ (w - 1) := Nat.not_le.mp hge
    have hdiv : x / 2 ^ (w - 1) = 0 := Nat.div_eq_of_lt hxlt
    have hse : sign_extend x w = x := by
      simp only [sign_extend]
      rw [hx65536, hcond, hdiv, if_neg (by decide : ¬ 0 % 2 = 1)]
    have hx32768 : x < 32768 := lt_32768_of_lt_halfpow w x hw2 hxlt
    rw [hse, toInt16_low x hx32768, toIntW_low w x hxlt]
    exact ⟨rfl, Nat.lt_of_lt_of_le hx32768 (by norm_num)⟩

/- Image loader lemmas. -/

theorem swap16_lt (x : Nat) : swap16 x < 65536 := by
  unfold swap16
  exact Nat.mod_lt _ (by norm_num)

theorem load_words_out (ws : List Nat) (m : Mem) (addr a : Nat)
    (h : a < addr ∨ addr + ws.length ≤ a) : load_words m addr ws a = m a := by
  induction ws generalizing m addr with
  | nil => rfl
  | cons w ws ih =>
    have hne : a ≠ addr := by
      rcases h with h | h
      · omega
      · simp only [List.length_cons] at h; omega
    rw [show load_words m addr (w :: ws) = load_words (store_word m addr w) (addr + 1) ws
      from rfl]
    rw [ih (store_word m addr w) (addr + 1) ?_]
    · simp [store_word, hne]
    · rcases h with h | h
      · left; omega
      · right; simp only [List.length_cons] at h; omega

theorem load_images_none (fs : List (Option (Nat × List Nat))) (m : Mem)
    (fs2 : List (Option (Nat × List Nat))) :
    load_images m (fs ++ none :: fs2) = none := by
  induction fs generalizing m with
  | nil => rfl
  | cons f fs ih =>
    simp only [List.cons_append, load_images]
    split
    · rfl
    · exact ih _

/-- C5: for every image stream and every origin, the loader writes words only
to addresses from the origin through at most 0xFFFF: loading stops at end of
stream or at the top of the address space, remaining words are silently
discarded, and no write outside the 65536-word memory occurs (every address
below the origin or above 0xFFFF is left unchanged). -/
theorem C5_loader_in_bounds (m : Mem) (rawOrigin : Nat) (body : List Nat) (a : Nat)
    (h : a < swap16 rawOrigin ∨ 65535 < a) :
    read_image_file m rawOrigin body a = m a := by
  unfold read_image_file
  apply load_words_out
  rcases h with h | h
  · left; exact h
  · right
    have horg : swap16 rawOrigin < 65536 := swap16_lt rawOrigin
    have hlen : ((body.take ((MEMORY_MAX - swap16 rawOrigin) % 65536)).map swap16).length
        ≤ (MEMORY_MAX - swap16 rawOrigin) % 65536 := by
      rw [List.length_map, List.length_take]
      exact min_le_left _ _
    set O := swap16 rawOrigin with hO
    set L := ((body.take ((MEMORY_MAX - O) % 65536)).map swap16).length with hL
    clear_value L
    clear_value O
    rw [show MEMORY_MAX = 65536 from rfl] at hlen
    clear hO hL
    omega

/-- C5 witness: loading an image at origin 0x3000 leaves address 0x2FFF
unchanged. -/
theorem C5_loader_in_bounds_witness :
    read_image_file (fun _ => 0) (swap16 0x3000) [1, 2, 3] 0x2FFF = 0 :=
  C5_loader_in_bounds (fun _ => 0) (swap16 0x3000) [1, 2, 3] 0x2FFF (Or.inl (by decide))

/-- C6: a missing or unreadable image source reports failure (return value 0)
and leaves Memory unchanged, and main does not start execution when any image
in the argument list fails to load. -/
theorem C6_load_failure :
    (∀ m, read_image m none = (0, m)) ∧
    (∀ files files2 inp fuel, lc3_main (files ++ none :: files2) inp fuel = none) := by
  constructor
  · intro m; rfl
  · intro files files2 inp fuel
    unfold lc3_main
    rw [load_images_none]

/-- C7: ADD arithmetic wraps modulo 65536: with R1 = 0xFFFF and R2 = 0x0001,
both the register form ADD R0,R1,R2 and the immediate form ADD R0,R1,#1
yield R0 = 0 and set the ZERO condition flag. -/
theorem C7_add_wraps :
    ((stepState c7s_reg).reg R_R0 = 0 ∧ (stepState c7s_reg).reg R_COND = FL_ZRO) ∧
    ((stepState c7s_imm).reg R_R0 = 0 ∧ (stepState c7s_imm).reg R_COND = FL_ZRO) :=
  ⟨⟨by decide, by decide⟩, ⟨by decide, by decide⟩⟩

/-- C8: sign extension fills the bits above position w-1 with copies of bit
w-1: extending 11111 (width 5) yields 0xFFFF, extending 01111 yields 0x000F,
and for every width w in {5, 6, 9, 11} and every input whose bits above
position w-1 are zero, the result is the 16-bit twos-complement sign
extension of the w-bit field. -/
theorem C8_sign_extend :
    sign_extend 0x1F 5 = 0xFFFF ∧ sign_extend 0x0F 5 = 0x000F ∧
    (∀ w, (w = 5 ∨ w = 6 ∨ w = 9 ∨ w = 11) → ∀ x, x < 2 ^ w →
      toInt16 (sign_extend x w) = toIntW w x ∧ sign_extend x w < 65536) := by
  refine ⟨by decide, by decide, ?_⟩
  intro w hw x hx
  exact sign_extend_sound w x (by rcases hw with h | h | h | h <;> omega)
    (by rcases hw with h | h | h | h <;> omega) hx

/-- C8 witness: the width-5 field 17 (binary 10001) sign-extends to a value
whose signed reading is -15. -/
theorem C8_sign_extend_witness :
    toInt16 (sign_extend 17 5) = toIntW 5 17 ∧ sign_extend 17 5 < 65536 :=
  C8_sign_extend.2.2 5 (Or.inl rfl) 17 (by decide)

/-- C10: loading an image whose origin word is 0x0000 writes nothing: the
computed capacity MEMORY_MAX - origin truncates to 0 in 16 bits, so Memory
is left entirely unchanged regardless of the image body. -/
theorem C10_zero_origin_loads_nothing (m : Mem) (body : List Nat) (a : Nat) :
    read_image_file m 0 body a = m a := rfl



theorem step_eq (s : VM) : step s = dispatch
    { s with mem := (mem_read s.mem s.input (s.reg R_PC)).2.1,
             input := (mem_read s.mem s.input (s.reg R_PC)).2.2,
             reg := writeReg s.reg R_PC (s.reg R_PC + 1) }
    (mem_read s.mem s.input (s.reg R_PC)).1 := rfl

theorem execADD_flag (s : VM) (i : Nat) :
    (execADD s i).reg R_COND = flagOf ((execADD s i).reg ((i >>> 9) &&& 0x7)) :=
  update_flags_reflects _ _ (dest_ne_cond i)

theorem execAND_flag (s : VM) (i : Nat) :
    (execAND s i).reg R_COND = flagOf ((execAND s i).reg ((i >>> 9) &&& 0x7)) :=
  update_flags_reflects _ _ (dest_ne_cond i)

theorem execNOT_flag (s : VM) (i : Nat) :
    (execNOT s i).reg R_COND = flagOf ((execNOT s i).reg ((i >>> 9) &&& 0x7)) :=
  update_flags_reflects _ _ (dest_ne_cond i)

theorem execLD_flag (s : VM) (i : Nat) :
    (execLD s i).reg R_COND = flagOf ((execLD s i).reg ((i >>> 9) &&& 0x7)) :=
  update_flags_reflects _ _ (dest_ne_cond i)

theorem execLDI_flag (s : VM) (i : Nat) :
    (execLDI s i).reg R_COND = flagOf ((execLDI s i).reg ((i >>> 9) &&& 0x7)) :=
  update_flags_reflects _ _ (dest_ne_cond i)

theorem execLDR_flag (s : VM) (i : Nat) :
    (execLDR s i).reg R_COND = flagOf ((execLDR s i).reg ((i >>> 9) &&& 0x7)) :=
  update_flags_reflects _ _ (dest_ne_cond i)

theorem execLEA_flag (s : VM) (i : Nat) :
    (execLEA s i).reg R_COND = flagOf ((execLEA s i).reg ((i >>> 9) &&& 0x7)) :=
  update_flags_reflects _ _ (dest_ne_cond i)

theorem execBR_cond (s : VM) (i : Nat) : (execBR s i).reg R_COND = s.reg R_COND := by
  simp only [execBR]
  split_ifs
  · simp [writeReg, R_COND, R_PC]
  · rfl

theorem execJMP_cond (s : VM) (i : Nat) : (execJMP s i).reg R_COND = s.reg R_COND := by
  simp [execJMP, writeReg, R_COND, R_PC]

theorem execJSR_cond (s : VM) (i : Nat) : (execJSR s i).reg R_COND = s.reg R_COND := by
  simp only [execJSR]
  split_ifs <;> simp [writeReg, R_COND, R_PC, R_R7]

theorem execTRAP_cond (s1 s2 : VM) (i : Nat) (h : execTRAP s1 i = .next s2) :
    s2.reg R_COND = s1.reg R_COND ∨ ∃ v, s2.reg R_COND = flagOf v := by
  simp only [execTRAP] at h
  split_ifs at h
  · injection h with h; subst h; exact Or.inr ⟨_, update_flags_cond _ _⟩
  · injection h with h; subst h; left; simp [writeReg, R_COND, R_R7]
  · injection h with h; subst h; left; simp [writeReg, R_COND, R_R7]
  · injection h with h; subst h; exact Or.inr ⟨_, update_flags_cond _ _⟩
  · injection h with h; subst h; exact Or.inr ⟨_, update_flags_cond _ _⟩
  · injection h with h; subst h; left; simp [writeReg, R_COND, R_R7]
  · injection h with h; subst h; left; simp [writeReg, R_COND, R_R7]
  · injection h with h; subst h; left; simp [writeReg, R_COND, R_R7]

theorem dispatch_cond (s1 s2 : VM) (i : Nat) (h : dispatch s1 i = .next s2) :
    s2.reg R_COND = s1.reg R_COND ∨ ∃ v, s2.reg R_COND = flagOf v := by
  unfold dispatch at h
  split at h
  · injection h with h; subst h; exact Or.inr ⟨_, execADD_flag _ _⟩
  · injection h with h; subst h; exact Or.inr ⟨_, execAND_flag _ _⟩
  · injection h with h; subst h; exact Or.inr ⟨_, execNOT_flag _ _⟩
  · injection h with h; subst h; exact Or.inl (execBR_cond _ _)
  · injection h with h; subst h; exact Or.inl (execJMP_cond _ _)
  · injection h with h; subst h; exact Or.inl (execJSR_cond _ _)
  · injection h with h; subst h; exact Or.inr ⟨_, execLD_flag _ _⟩
  · injection h with h; subst h; exact Or.inr ⟨_, execLDI_flag _ _⟩
  · injection h with h; subst h; exact Or.inr ⟨_, execLDR_flag _ _⟩
  · injection h with h; subst h; exact Or.inr ⟨_, execLEA_flag _ _⟩
  · injection h with h; subst h; exact Or.inl rfl
  · injection h with h; subst h; exact Or.inl rfl
  · injection h with h; subst h; exact Or.inl rfl
  · exact execTRAP_cond _ _ _ h
  · exact absurd h (by simp)

theorem step_cond (s s2 : VM) (h : step s = .next s2) :
    s2.reg R_COND = s.reg R_COND ∨ ∃ v, s2.reg R_COND = flagOf v := by
  rw [step_eq] at h
  rcases dispatch_cond _ _ _ h with h1 | h2
  · left
    rw [h1]
    simp [writeReg, R_COND, R_PC]
  · right
    exact h2


theorem cond_invariant (s : VM) (h : Reachable s) : oneFlag (s.reg R_COND) := by
  induction h with
  | init m inp => exact Or.inr (Or.inl rfl)
  | step s s2 hr hrun hstep ih =>
    rcases step_cond s s2 hstep with he | ⟨v, hv⟩
    · rw [he]; exact ih
    · rw [hv]; exact flagOf_oneFlag v

theorem r0_ne_cond : R_R0 ≠ R_COND := by unfold R_R0 R_COND; omega

theorem dispatch_flag (s1 s2 : VM) (i : Nat) (h : dispatch s1 i = .next s2)
    (hf : flag_affecting i = true) :
    s2.reg R_COND = flagOf (s2.reg (flag_dest i)) := by
  unfold dispatch at h
  split at h
  · rename_i heq
    injection h with h; subst h
    rw [show flag_dest i = (i >>> 9) &&& 0x7 by simp [flag_dest, heq]]
    exact execADD_flag _ _
  · rename_i heq
    injection h with h; subst h
    rw [show flag_dest i = (i >>> 9) &&& 0x7 by simp [flag_dest, heq]]
    exact execAND_flag _ _
  · rename_i heq
    injection h with h; subst h
    rw [show flag_dest i = (i >>> 9) &&& 0x7 by simp [flag_dest, heq]]
    exact execNOT_flag _ _
  · rename_i heq; simp [flag_affecting, heq] at hf
  · rename_i heq; simp [flag_affecting, heq] at hf
  · rename_i heq; simp [flag_affecting, heq] at hf
  · rename_i heq
    injection h with h; subst h
    rw [show flag_dest i = (i >>> 9) &&& 0x7 by simp [flag_dest, heq]]
    exact execLD_flag _ _
  · rename_i heq
    injection h with h; subst h
    rw [show flag_dest i = (i >>> 9) &&& 0x7 by simp [flag_dest, heq]]
    exact execLDI_flag _ _
  · rename_i heq
    injection h with h; subst h
    rw [show flag_dest i = (i >>> 9) &&& 0x7 by simp [flag_dest, heq]]
    exact execLDR_flag _ _
  · rename_i heq
    injection h with h; subst h
    rw [show flag_dest i = (i >>> 9) &&& 0x7 by simp [flag_dest, heq]]
    exact execLEA_flag _ _
  · rename_i heq; simp [flag_affecting, heq] at hf
  · rename_i heq; simp [flag_affecting, heq] at hf
  · rename_i heq; simp [flag_affecting, heq] at hf
  · rename_i heq
    simp only [flag_affecting, heq] at hf
    norm_num at hf
    rw [show flag_dest i = R_R0 by simp [flag_dest, heq]]
    simp only [execTRAP] at h
    rcases hf with hf | hf
    · rw [if_pos hf] at h
      injection h with h; subst h
      exact update_flags_reflects _ _ r0_ne_cond
    · rw [if_neg (by rw [hf]; decide), if_neg (by rw [hf]; decide),
        if_neg (by rw [hf]; decide), if_pos hf] at h
      injection h with h; subst h
      exact update_flags_reflects _ _ r0_ne_cond
  · exact absurd h (by simp)

theorem dispatch_flag_false (s1 s2 : VM) (i : Nat) (h : dispatch s1 i = .next s2)
    (hf : flag_affecting i = false) :
    s2.reg R_COND = s1.reg R_COND := by
  unfold dispatch at h
  split at h
  · rename_i heq; simp [flag_affecting, heq] at hf
  · rename_i heq; simp [flag_affecting, heq] at hf
  · rename_i heq; simp [flag_affecting, heq] at hf
  · injection h with h; subst h; exact execBR_cond _ _
  · injection h with h; subst h; exact execJMP_cond _ _
  · injection h with h; subst h; exact execJSR_cond _ _
  · rename_i heq; simp [flag_affecting, heq] at hf
  · rename_i heq; simp [flag_affecting, heq] at hf
  · rename_i heq; simp [flag_affecting, heq] at hf
  · rename_i heq; simp [flag_affecting, heq] at hf
  · injection h with h; subst h; rfl
  · injection h with h; subst h; rfl
  · injection h with h; subst h; rfl
  · rename_i heq
    simp only [flag_affecting, heq] at hf
    norm_num at hf
    obtain ⟨hf1, hf2⟩ := hf
    simp only [execTRAP] at h
    split_ifs at h <;> (injection h with h; subst h; simp [writeReg, R_COND, R_R7])
  · exact absurd h (by simp)

theorem step_flag_true (s s2 : VM) (h : step s = .next s2)
    (hf : flag_affecting (fetchInstr s) = true) :
    s2.reg R_COND = flagOf (s2.reg (flag_dest (fetchInstr s))) := by
  rw [step_eq] at h
  exact dispatch_flag _ _ _ h hf

theorem step_flag_false (s s2 : VM) (h : step s = .next s2)
    (hf : flag_affecting (fetchInstr s) = false) :
    s2.reg R_COND = s.reg R_COND := by
  rw [step_eq] at h
  rw [dispatch_flag_false _ _ _ h hf]
  simp [writeReg, R_COND, R_PC]

/-- C1: in every reachable state of the execution loop the condition-code
register holds exactly one of the three flags; after any step executing a
flag-affecting operation (ADD, AND, NOT, LD, LDI, LDR, LEA, TRAP GETC,
TRAP IN) it equals the flag of the value just written to the destination
register (ZERO for 0, NEGATIVE when bit 15 is set, POSITIVE otherwise), and
any other step leaves it unchanged, so it always reflects the most recently
written value. -/
theorem C1_condition_flags :
    (∀ s, Reachable s → oneFlag (s.reg R_COND)) ∧
    (∀ s s2, step s = .next s2 → flag_affecting (fetchInstr s) = true →
      s2.reg R_COND = flagOf (s2.reg (flag_dest (fetchInstr s)))) ∧
    (∀ s s2, step s = .next s2 → flag_affecting (fetchInstr s) = false →
      s2.reg R_COND = s.reg R_COND) :=
  ⟨cond_invariant, step_flag_true, step_flag_false⟩

/-- C1 witness: the invariant at the initial state, and the flag after a
concrete ADD step. -/
theorem C1_witness :
    oneFlag (c1s.reg R_COND) ∧
    c1s1.reg R_COND = flagOf (c1s1.reg (flag_dest (fetchInstr c1s))) :=
  ⟨C1_condition_flags.1 c1s (Reachable.init c1m []),
   C1_condition_flags.2.1 c1s c1s1 rfl (by decide)⟩

/-- C4: fetching an instruction whose opcode is RTI (0x8) or the reserved
opcode (0xD) aborts the run: the step aborts, the loop reports the aborted
status, distinct from any normal halt, and no further instruction runs. -/
theorem C4_illegal_opcode_aborts (s : VM) (fuel : Nat) (hrun : s.running = true)
    (hop : fetchInstr s >>> 12 = 8 ∨ fetchInstr s >>> 12 = 13) :
    step s = .aborted ∧ run (fuel + 1) s = .aborted ∧
      ∀ t, run (fuel + 1) s ≠ .halted t := by
  have hstep : step s = .aborted := by
    rw [step_eq]
    unfold dispatch
    simp only [fetchInstr] at hop
    rcases hop with h | h <;> rw [h]
  refine ⟨hstep, ?_, ?_⟩
  · simp [run, hrun, hstep]
  · intro t
    simp [run, hrun, hstep]

/-- C4 witness: an RTI instruction at the start address aborts the run. -/
theorem C4_witness : step c4s = .aborted ∧ run 1 c4s = .aborted :=
  ⟨(C4_illegal_opcode_aborts c4s 0 rfl (Or.inl (by decide))).1,
   (C4_illegal_opcode_aborts c4s 0 rfl (Or.inl (by decide))).2.1⟩

/-- C9: in the register form of JSR (JSRR) the link write to R7 happens
before the base register is read, so JSRR with base register R7 sets the
program counter to the saved return address (the address following the
JSRR), regardless of the value R7 held before the instruction. -/
theorem C9_jsrr_link_order (s : VM)
    (hop : fetchInstr s >>> 12 = 4)
    (hlong : (fetchInstr s >>> 11) &&& 1 = 0)
    (hbase : (fetchInstr s >>> 6) &&& 0x7 = 7) :
    step s = .next (stepState s) ∧
    (stepState s).reg R_PC = (s.reg R_PC + 1) % 65536 ∧
    (stepState s).reg R_R7 = (s.reg R_PC + 1) % 65536 := by
  simp only [fetchInstr] at hop hlong hbase
  have hstep : step s = .next (execJSR
      { s with mem := (mem_read s.mem s.input (s.reg R_PC)).2.1,
               input := (mem_read s.mem s.input (s.reg R_PC)).2.2,
               reg := writeReg s.reg R_PC (s.reg R_PC + 1) }
      (mem_read s.mem s.input (s.reg R_PC)).1) := by
    rw [step_eq]
    unfold dispatch
    rw [hop]
  have hss : stepState s = execJSR
      { s with mem := (mem_read s.mem s.input (s.reg R_PC)).2.1,
               input := (mem_read s.mem s.input (s.reg R_PC)).2.2,
               reg := writeReg s.reg R_PC (s.reg R_PC + 1) }
      (mem_read s.mem s.input (s.reg R_PC)).1 := by
    rw [stepState, hstep]
  refine ⟨by rw [hstep, hss], ?_, ?_⟩ <;>
    rw [hss] <;>
    unfold execJSR <;>
    rw [if_neg (by rw [hlong]; norm_num), hbase] <;>
    simp [writeReg, R_PC, R_R7]

/-- C9 witness: JSRR with base R7 at the start address jumps to 0x3001. -/
theorem C9_witness :
    step c9s = .next (stepState c9s) ∧
    (stepState c9s).reg R_PC = (c9s.reg R_PC + 1) % 65536 ∧
    (stepState c9s).reg R_R7 = (c9s.reg R_PC + 1) % 65536 :=
  C9_jsrr_link_order c9s (by decide) (by decide) (by decide)

/-- C3 counterexample: executing TRAP 0x26 (an undefined trap vector) does
not terminate with an error; the step succeeds, the machine is still
running, and the loop continues at the next instruction. -/
theorem C3_undefined_trap_counterexample :
    step c3s = .next c3s1 ∧ c3s1.running = true ∧ c3s1.reg R_PC = 0x3001 ∧
      step c3s ≠ .aborted := by
  refine ⟨rfl, by decide, by decide, ?_⟩
  intro hab
  rw [show step c3s = .next c3s1 from rfl] at hab
  exact StepResult.noConfusion hab

/-- C3 amended: a TRAP whose low 8 bits are outside the six defined service
codes is silently ignored apart from the link write R7 := PC: the C switch
has no default case, so execution continues with the next instruction and
no error is raised. -/
theorem C3_undefined_trap_amended (s : VM)
    (hop : fetchInstr s >>> 12 = 15)
    (h1 : fetchInstr s &&& 0xFF ≠ TRAP_GETC) (h2 : fetchInstr s &&& 0xFF ≠ TRAP_OUT)
    (h3 : fetchInstr s &&& 0xFF ≠ TRAP_PUTS) (h4 : fetchInstr s &&& 0xFF ≠ TRAP_IN)
    (h5 : fetchInstr s &&& 0xFF ≠ TRAP_PUTSP) (h6 : fetchInstr s &&& 0xFF ≠ TRAP_HALT) :
    step s = .next (stepState s) ∧
    (stepState s).running = s.running ∧
    (stepState s).reg R_PC = (s.reg R_PC + 1) % 65536 ∧
    (stepState s).reg R_R7 = (s.reg R_PC + 1) % 65536 ∧
    (stepState s).output = s.output ∧
    (∀ j, j ≠ R_PC → j ≠ R_R7 → (stepState s).reg j = s.reg j) := by
  simp only [fetchInstr] at hop h1 h2 h3 h4 h5 h6
  have hstep : step s = execTRAP
      { s with mem := (mem_read s.mem s.input (s.reg R_PC)).2.1,
               input := (mem_read s.mem s.input (s.reg R_PC)).2.2,
               reg := writeReg s.reg R_PC (s.reg R_PC + 1) }
      (mem_read s.mem s.input (s.reg R_PC)).1 := by
    rw [step_eq]
    unfold dispatch
    rw [hop]
  have hnext : execTRAP
      { s with mem := (mem_read s.mem s.input (s.reg R_PC)).2.1,
               input := (mem_read s.mem s.input (s.reg R_PC)).2.2,
               reg := writeReg s.reg R_PC (s.reg R_PC + 1) }
      (mem_read s.mem s.input (s.reg R_PC)).1 = .next
      { s with mem := (mem_read s.mem s.input (s.reg R_PC)).2.1,
               input := (mem_read s.mem s.input (s.reg R_PC)).2.2,
               reg := writeReg (writeReg s.reg R_PC (s.reg R_PC + 1)) R_R7
                 (writeReg s.reg R_PC (s.reg R_PC + 1) R_PC) } := by
    simp only [execTRAP]
    rw [if_neg h1, if_neg h2, if_neg h3, if_neg h4, if_neg h5, if_neg h6]
  have hss : stepState s =
      { s with mem := (mem_read s.mem s.input (s.reg R_PC)).2.1,
               input := (mem_read s.mem s.input (s.reg R_PC)).2.2,
               reg := writeReg (writeReg s.reg R_PC (s.reg R_PC + 1)) R_R7
                 (writeReg s.reg R_PC (s.reg R_PC + 1) R_PC) } := by
    unfold stepState
    rw [hstep, hnext]
  refine ⟨by rw [hstep, hnext, hss], by rw [hss], ?_, ?_, by rw [hss], ?_⟩
  · rw [hss]
    simp [writeReg, R_PC, R_R7]
  · rw [hss]
    simp [writeReg, R_PC, R_R7]
  · intro j hj1 hj2
    rw [hss]
    simp [writeReg, hj1, hj2]

/-- C3 amended witness: the concrete TRAP 0x26 state steps normally. -/
theorem C3_amended_witness :
    step c3s = .next (stepState c3s) ∧
    (stepState c3s).running = c3s.running ∧
    (stepState c3s).reg R_PC = (c3s.reg R_PC + 1) % 65536 ∧
    (stepState c3s).reg R_R7 = (c3s.reg R_PC + 1) % 65536 ∧
    (stepState c3s).output = c3s.output ∧
    (stepState c3s).reg R_R0 = c3s.reg R_R0 := by
  have h := C3_undefined_trap_amended c3s (by decide) (by decide) (by decide)
    (by decide) (by decide) (by decide) (by decide)
  exact ⟨h.1, h.2.1, h.2.2.1, h.2.2.2.1, h.2.2.2.2.1,
    h.2.2.2.2.2 R_R0 (by decide) (by decide)⟩

/-- C2: every read of address 0xFE00 polls console input as a side effect:
if input is available the stored status word becomes 0x8000 (bit 15 set)
and the observed character is stored at 0xFE02 and consumed; otherwise the
stored status word becomes 0.  Reading 0xFE02 returns the stored word and
performs no input consumption and no state change. -/
theorem C2_mmio_read (m : Mem) (inp : List Nat) :
    (∀ c rest, inp = c :: rest →
      (mem_read m inp MR_KBSR).2.1 MR_KBSR = 1 <<< 15 ∧
      ((mem_read m inp MR_KBSR).2.1 MR_KBSR) >>> 15 = 1 ∧
      (mem_read m inp MR_KBSR).2.1 MR_KBDR = c % 65536 ∧
      (mem_read m inp MR_KBSR).2.2 = rest) ∧
    (inp = [] →
      (mem_read m inp MR_KBSR).2.1 MR_KBSR = 0 ∧
      (mem_read m inp MR_KBSR).2.2 = inp) ∧
    mem_read m inp MR_KBDR = (m MR_KBDR, m, inp) := by
  refine ⟨?_, ?_, ?_⟩
  · rintro c rest rfl
    refine ⟨?_, ?_, ?_, ?_⟩ <;>
      simp [mem_read, check_key, getchar, mem_write, MR_KBSR, MR_KBDR]
  · rintro rfl
    constructor <;> simp [mem_read, check_key, mem_write, MR_KBSR]
  · rfl

/-- C2 witness: the device shim at concrete memory and input. -/
theorem C2_witness :
    (mem_read c2m [65] MR_KBSR).2.1 MR_KBSR = 1 <<< 15 ∧
    (mem_read c2m [65] MR_KBSR).2.1 MR_KBDR = 65 % 65536 ∧
    (mem_read c2m [] MR_KBSR).2.1 MR_KBSR = 0 ∧
    mem_read c2m [65] MR_KBDR = (c2m MR_KBDR, c2m, [65]) :=
  ⟨((C2_mmio_read c2m [65]).1 65 [] rfl).1,
   ((C2_mmio_read c2m [65]).1 65 [] rfl).2.2.1,
   ((C2_mmio_read c2m []).2.1 rfl).1,
   (C2_mmio_read c2m [65]).2.2⟩

/-- C6 witness: a single failing image leaves the zero memory unchanged and
main does not start execution. -/
theorem C6_witness :
    read_image (fun _ => 0) none = (0, fun _ => 0) ∧
    lc3_main ([] ++ none :: []) [] 1 = none :=
  ⟨C6_load_failure.1 (fun _ => 0), C6_load_failure.2 [] [] [] 1⟩

/-- C10 witness: a zero-origin image with a nonempty body changes nothing. -/
theorem C10_witness :
    read_image_file (fun _ => 0) 0 [5, 6] 100 = 0 :=
  C10_zero_origin_loads_nothing (fun _ => 0) [5, 6] 100


end LC3
